import Mathlib

/-!
Verification of the `lookup` repository's extraction routine
(`src/utils/parse.py`, function `extract_word_defs`).

The Python function opens a JSON file, parses it, iterates the mapping's
values, and for each entry with a truthy `word` and truthy `meanings`
prints one line `word.lower()|definition[0].upper() + definition[1:]`
per meaning with a truthy `def`.  Any exception raised inside the `try`
block (covering the file open, the JSON parse AND the traversal) is
caught and reported as `Error processing file: {message}`; the function
returns an empty list on every path.

Shallow embedding choices:
* A parsed document is a list of key/value pairs (Python dict iteration
  order is insertion order); `dict.values()` drops the keys.
* An entry value is either a JSON object with the expected optional
  fields, or some other JSON value: calling `.get` on the latter raises
  `AttributeError("'<type>' object has no attribute 'get'")`, which the
  broad `except` also catches.  Fields of unexpected types beyond this
  are out of the spec's contract and not modelled.
* A string-valued field is absent, null, or a string; `entry.get(k)`
  yields Python `None` for absent and null alike.
  `entry.get("meanings", [])` yields `[]` for absent, `None` for null.
* Python truthiness of a `.get` result: `None` and `""` / `[]` are
  falsy, a non-empty string / list is truthy.
* `str.lower` / `str.upper` are modelled per-character with
  `Char.toLower` / `Char.toUpper` (the spec scopes case rules to ASCII).
* Printing and exceptions are modelled by `PyOut`: the list of lines
  printed so far and the pending exception message, if any.
-/

/-- A JSON field that should hold a string: absent key, JSON null, or a
string value.  Mirrors what `entry.get("word")` / `meaning.get("def")`
can observe. -/
inductive StrField where
  | absent : StrField
  | null : StrField
  | str : String → StrField
deriving DecidableEq, Repr

/-- One element of an entry's `meanings` array: an object with an
optional `def` field. -/
structure Meaning where
  defField : StrField
deriving DecidableEq, Repr

/-- The `meanings` field of an entry: absent key, JSON null, or an array
of meaning objects.  Mirrors what `entry.get("meanings", [])` can
observe (the `[]` default applies only when the key is absent). -/
inductive MeaningsField where
  | absent : MeaningsField
  | null : MeaningsField
  | list : List Meaning → MeaningsField
deriving DecidableEq, Repr

/-- A well-shaped entry object: optional `word`, optional `meanings`. -/
structure Entry where
  word : StrField
  meanings : MeaningsField
deriving DecidableEq, Repr

/-- A value of the top-level JSON mapping: either a well-shaped entry
object, or any non-object JSON value (carrying its Python type name),
on which `.get` raises `AttributeError`. -/
inductive EntryVal where
  | obj : Entry → EntryVal
  | nonObj : String → EntryVal
deriving DecidableEq, Repr

/-- `entry.get(key)` on a string-valued field: absent and null both come
back as Python `None`. -/
def getStr : StrField → Option String
  | .absent => none
  | .null => none
  | .str s => some s

/-- `entry.get("meanings", [])`: the default `[]` is used only when the
key is absent; a JSON null comes back as `None`. -/
def getMeanings : MeaningsField → Option (List Meaning)
  | .absent => some []
  | .null => none
  | .list ms => some ms

/-- `word.lower()`: lowercase every character (ASCII case rules, per
the spec's scope). -/
def pyLower (s : String) : String := String.mk (s.data.map Char.toLower)

/-- The observable effects of a stretch of Python code: the lines it
printed, and the exception it raised, if any. -/
structure PyOut where
  printed : List String
  exc : Option String
deriving DecidableEq, Repr

/-- Sequencing: run `a`; if it raised, `b` never runs. -/
def seqOut (a b : PyOut) : PyOut :=
  match a.exc with
  | some _ => a
  | none => ⟨a.printed ++ b.printed, b.exc⟩

/-- The body of the inner loop:
`definition = meaning.get("def"); if definition: print(f"{word.lower()}|{definition[0].upper() + definition[1:]}")`.
The `string index out of range` branch is the `IndexError` that
`definition[0]` would raise on an empty string; the truthiness guard
makes it unreachable (proved below). -/
def processMeaning (w : String) (m : Meaning) : PyOut :=
  match getStr m.defField with
  | none => ⟨[], none⟩
  | some d =>
    if d.data.isEmpty then ⟨[], none⟩
    else
      match d.data with
      | [] => ⟨[], some "string index out of range"⟩
      | c :: cs => ⟨[pyLower w ++ "|" ++ String.mk (Char.toUpper c :: cs)], none⟩

/-- `for meaning in meanings: ...` -/
def runMeanings (w : String) : List Meaning → PyOut
  | [] => ⟨[], none⟩
  | m :: rest => seqOut (processMeaning w m) (runMeanings w rest)

/-- One iteration of the outer loop over `data.values()`.  A non-object
value raises `AttributeError` at `entry.get("word")`; an object is read
and, when `word` and `meanings` are both truthy, its meanings are
processed. -/
def runEntry : EntryVal → PyOut
  | .nonObj ty => ⟨[], some ("'" ++ ty ++ "' object has no attribute 'get'")⟩
  | .obj e =>
    match getStr e.word, getMeanings e.meanings with
    | some w, some ms =>
      if w.data.isEmpty || ms.isEmpty then ⟨[], none⟩
      else runMeanings w ms
    | some _, none => ⟨[], none⟩
    | none, _ => ⟨[], none⟩

/-- `for entry in data.values(): ...` -/
def runEntries : List EntryVal → PyOut
  | [] => ⟨[], none⟩
  | v :: rest => seqOut (runEntry v) (runEntries rest)

/-- `data.values()`: a Python dict iterates in insertion order and
`values()` drops the keys. -/
def pyValues (doc : List (String × EntryVal)) : List EntryVal :=
  doc.map Prod.snd

/-- The outcome of `open` + `json.load`: either the parsed top-level
mapping, or the message of the exception raised (missing file,
permission error, bad UTF-8, malformed JSON, ...). -/
inductive LoadResult where
  | success : List (String × EntryVal) → LoadResult
  | failure : String → LoadResult
deriving DecidableEq, Repr

/-- The diagnostic printed by the `except` handler:
`print(f"Error processing file: {str(e)}")`. -/
def errLine (msg : String) : String := "Error processing file: " ++ msg

/-- `extract_word_defs`, given the outcome of the load/parse step.
Result: the full sequence of printed lines, and the returned value.
On a load failure the handler prints the diagnostic and returns `[]`.
On a successful load, the traversal runs; if it raises (only possible
at a non-object entry), the handler appends the diagnostic after the
lines already printed and returns `[]`; otherwise the function returns
`results`, the accumulator that is created but never appended to. -/
def extract_word_defs : LoadResult → List String × List String
  | .failure msg => ([errLine msg], [])
  | .success doc =>
    let results : List String := []
    let o := runEntries (pyValues doc)
    match o.exc with
    | none => (o.printed, results)
    | some m => (o.printed ++ [errLine m], [])

/-- A meaning's `def` is truthy: present, non-null and non-empty. -/
def truthyDef (m : Meaning) : Bool :=
  match getStr m.defField with
  | none => false
  | some d => !d.data.isEmpty

/-- The number of meanings in a list whose `def` is truthy. -/
def countTruthyDefs (ms : List Meaning) : Nat :=
  (ms.filter truthyDef).length

/-- A printed line is the handler's diagnostic iff it starts with
`Error processing file: `. -/
def isDiagLine (l : String) : Bool :=
  List.isPrefixOf ("Error processing file: ").data l.data

/-! ### Helper lemmas -/

/-- The inner loop body never raises: the `IndexError` branch is dead. -/
theorem processMeaning_exc_none (w : String) (m : Meaning) :
    (processMeaning w m).exc = none := by
  unfold processMeaning
  cases hd : getStr m.defField with
  | none => rfl
  | some d =>
    cases hc : d.data with
    | nil => simp [hc]
    | cons c cs => simp [hc]

/-- Iterating the meanings of one entry never raises. -/
theorem runMeanings_exc_none (w : String) (ms : List Meaning) :
    (runMeanings w ms).exc = none := by
  induction ms with
  | nil => rfl
  | cons m rest ih =>
    rw [runMeanings]
    unfold seqOut
    rw [processMeaning_exc_none]
    exact ih

/-- `seqOut` when the first part does not raise. -/
theorem seqOut_of_exc_none {a : PyOut} (b : PyOut) (h : a.exc = none) :
    seqOut a b = ⟨a.printed ++ b.printed, b.exc⟩ := by
  unfold seqOut
  rw [h]

/-- A line printed by a sequence was printed by one of its parts. -/
theorem mem_seqOut {l : String} {a b : PyOut}
    (h : l ∈ (seqOut a b).printed) : l ∈ a.printed ∨ l ∈ b.printed := by
  unfold seqOut at h
  cases hx : a.exc with
  | some m => rw [hx] at h; exact Or.inl h
  | none => rw [hx] at h; exact List.mem_append.mp h

/-- A line printed by the outer loop was printed while processing some
value of the document. -/
theorem mem_runEntries {l : String} {vs : List EntryVal}
    (h : l ∈ (runEntries vs).printed) :
    ∃ v ∈ vs, l ∈ (runEntry v).printed := by
  induction vs with
  | nil => simp [runEntries] at h
  | cons v rest ih =>
    rw [runEntries] at h
    rcases mem_seqOut h with h1 | h2
    · exact ⟨v, by simp, h1⟩
    · obtain ⟨u, hu, hlu⟩ := ih h2
      exact ⟨u, by simp [hu], hlu⟩

/-- A line printed by the inner loop was printed by one of the meanings. -/
theorem mem_runMeanings {l : String} {w : String} {ms : List Meaning}
    (h : l ∈ (runMeanings w ms).printed) :
    ∃ m ∈ ms, l ∈ (processMeaning w m).printed := by
  induction ms with
  | nil => simp [runMeanings] at h
  | cons m rest ih =>
    rw [runMeanings] at h
    rcases mem_seqOut h with h1 | h2
    · exact ⟨m, by simp, h1⟩
    · obtain ⟨u, hu, hlu⟩ := ih h2
      exact ⟨u, by simp [hu], hlu⟩

/-- A line printed for one meaning determines the meaning's `def` and
the line's exact shape. -/
theorem mem_processMeaning {l w : String} {m : Meaning}
    (h : l ∈ (processMeaning w m).printed) :
    ∃ d c cs, getStr m.defField = some d ∧ d.data = c :: cs ∧
      l = pyLower w ++ "|" ++ String.mk (Char.toUpper c :: cs) := by
  obtain ⟨df⟩ := m
  cases df with
  | absent => simp [processMeaning, getStr] at h
  | null => simp [processMeaning, getStr] at h
  | str d =>
    cases hc : d.data with
    | nil =>
      have hp : processMeaning w ⟨StrField.str d⟩ = ⟨[], none⟩ := by
        unfold processMeaning
        simp [getStr, hc]
      rw [hp] at h
      simp at h
    | cons c cs =>
      have hp : processMeaning w ⟨StrField.str d⟩ =
          ⟨[pyLower w ++ "|" ++ String.mk (Char.toUpper c :: cs)], none⟩ := by
        unfold processMeaning
        simp [getStr, hc]
      rw [hp] at h
      simp at h
      exact ⟨d, c, cs, rfl, hc, h⟩

/-- A printed line comes from an entry object whose `word` and
`meanings` both passed the truthiness guard. -/
theorem mem_runEntry {l : String} {v : EntryVal}
    (h : l ∈ (runEntry v).printed) :
    ∃ e w ms, v = EntryVal.obj e ∧ getStr e.word = some w ∧
      getMeanings e.meanings = some ms ∧ l ∈ (runMeanings w ms).printed := by
  cases v with
  | nonObj ty => simp [runEntry] at h
  | obj e =>
    obtain ⟨wd, ms0⟩ := e
    cases wd with
    | absent => simp [runEntry, getStr] at h
    | null => simp [runEntry, getStr] at h
    | str s =>
      cases ms0 with
      | null => simp [runEntry, getStr, getMeanings] at h
      | absent => simp [runEntry, getStr, getMeanings] at h
      | list ms =>
        by_cases hg : (s.data.isEmpty || ms.isEmpty) = true
        · have hr : runEntry (EntryVal.obj ⟨StrField.str s, MeaningsField.list ms⟩)
              = ⟨[], none⟩ := by
            unfold runEntry
            simp only [getStr, getMeanings]
            rw [if_pos hg]
          rw [hr] at h
          simp at h
        · have hr : runEntry (EntryVal.obj ⟨StrField.str s, MeaningsField.list ms⟩)
              = runMeanings s ms := by
            unfold runEntry
            simp only [getStr, getMeanings]
            rw [if_neg hg]
          rw [hr] at h
          exact ⟨⟨StrField.str s, MeaningsField.list ms⟩, s, ms, rfl, rfl, rfl, h⟩

/-- One meaning contributes one line when its `def` is truthy, none
otherwise. -/
theorem processMeaning_printed_length (w : String) (m : Meaning) :
    (processMeaning w m).printed.length = if truthyDef m then 1 else 0 := by
  unfold processMeaning truthyDef
  cases hd : getStr m.defField with
  | none => rfl
  | some d =>
    cases hc : d.data with
    | nil => simp [hc]
    | cons c cs => simp [hc]

/-- The inner loop prints exactly one line per truthy `def`. -/
theorem runMeanings_printed_length (w : String) (ms : List Meaning) :
    (runMeanings w ms).printed.length = countTruthyDefs ms := by
  induction ms with
  | nil => rfl
  | cons m rest ih =>
    rw [runMeanings, seqOut_of_exc_none _ (processMeaning_exc_none w m)]
    simp only [List.length_append, ih]
    rw [processMeaning_printed_length]
    unfold countTruthyDefs
    cases ht : truthyDef m <;> simp [List.filter, ht, countTruthyDefs, Nat.add_comm]

/-- A skipped meaning can be removed from the list without changing the
inner loop's behaviour. -/
theorem runMeanings_skip {w : String} {m : Meaning}
    (hpm : processMeaning w m = ⟨[], none⟩) :
    ∀ (ms1 ms2 : List Meaning),
      runMeanings w (ms1 ++ m :: ms2) = runMeanings w (ms1 ++ ms2) := by
  intro ms1 ms2
  induction ms1 with
  | nil =>
    rw [List.nil_append, List.nil_append, runMeanings, hpm]
    rfl
  | cons a ms1 ih =>
    rw [List.cons_append, List.cons_append, runMeanings, runMeanings, ih]

/-! ### Claim theorems -/

/-- Claim C1: every line a successful run of `extract_word_defs` emits
has the form `w|d` where `w` is a source entry's `word` lowercased,
`d`'s first character is that entry's meaning's `def` first character
uppercased, and every remaining character of `d` is identical to the
corresponding character of that `def`. -/
theorem c1_emitted_line_shape (doc : List (String × EntryVal)) (l : String)
    (hexc : (runEntries (pyValues doc)).exc = none)
    (hl : l ∈ (extract_word_defs (LoadResult.success doc)).fst) :
    ∃ e w ms m d c cs,
      EntryVal.obj e ∈ pyValues doc ∧
      getStr e.word = some w ∧
      getMeanings e.meanings = some ms ∧
      m ∈ ms ∧
      getStr m.defField = some d ∧
      d.data = c :: cs ∧
      l = pyLower w ++ "|" ++ String.mk (Char.toUpper c :: cs) := by
  have hfst : (extract_word_defs (LoadResult.success doc)).fst
      = (runEntries (pyValues doc)).printed := by
    simp only [extract_word_defs, hexc]
  rw [hfst] at hl
  obtain ⟨v, hv, hlv⟩ := mem_runEntries hl
  obtain ⟨e, w, ms, rfl, hw, hms, hlm⟩ := mem_runEntry hlv
  obtain ⟨m, hm, hlp⟩ := mem_runMeanings hlm
  obtain ⟨d, c, cs, hd, hdc, hleq⟩ := mem_processMeaning hlp
  exact ⟨e, w, ms, m, d, c, cs, hv, hw, hms, hm, hd, hdc, hleq⟩

/-- The document used to witness claim C1. -/
def c1doc : List (String × EntryVal) :=
  [("1", EntryVal.obj ⟨StrField.str "Cat", MeaningsField.list [⟨StrField.str "ab"⟩]⟩)]

/-- Witness for claim C1 at the concrete line `cat|Ab`. -/
theorem c1_emitted_line_shape_witness :
    ∃ e w ms m d c cs,
      EntryVal.obj e ∈ pyValues c1doc ∧
      getStr e.word = some w ∧
      getMeanings e.meanings = some ms ∧
      m ∈ ms ∧
      getStr m.defField = some d ∧
      d.data = c :: cs ∧
      "cat|Ab" = pyLower w ++ "|" ++ String.mk (Char.toUpper c :: cs) :=
  c1_emitted_line_shape c1doc "cat|Ab" (by decide) (by decide)

/-- Claim C2: an entry whose `word` is falsy (absent, null or `""`) or
whose `meanings` is absent, null or `[]` produces no output at all,
regardless of the contents of its meanings. -/
theorem c2_skip_entry (e : Entry)
    (h : e.word = StrField.absent ∨ e.word = StrField.null ∨
         e.word = StrField.str "" ∨ e.meanings = MeaningsField.absent ∨
         e.meanings = MeaningsField.null ∨ e.meanings = MeaningsField.list []) :
    runEntry (EntryVal.obj e) = ⟨[], none⟩ := by
  obtain ⟨wd, ms0⟩ := e
  have h0 : ("" : String).data.isEmpty = true := by decide
  simp only at h
  rcases h with h | h | h | h | h | h <;> subst h
  · cases ms0 <;> simp [runEntry, getStr, getMeanings]
  · cases ms0 <;> simp [runEntry, getStr, getMeanings]
  · cases ms0 <;> simp [runEntry, getStr, getMeanings, h0]
  · cases wd <;> simp [runEntry, getStr, getMeanings]
  · cases wd <;> simp [runEntry, getStr, getMeanings]
  · cases wd <;> simp [runEntry, getStr, getMeanings]

/-- Witness for claim C2: a processed entry with an empty word and a
non-empty meaning emits nothing. -/
theorem c2_skip_entry_witness :
    runEntry (EntryVal.obj ⟨StrField.str "",
      MeaningsField.list [⟨StrField.str "ignored"⟩]⟩) = ⟨[], none⟩ :=
  c2_skip_entry ⟨StrField.str "", MeaningsField.list [⟨StrField.str "ignored"⟩]⟩
    (Or.inr (Or.inr (Or.inl rfl)))

/-- Claim C5: a failure of the open/read/parse step is reported as a
single `Error processing file: {message}` line on standard output, the
function returns an empty list, and no exception propagates (the result
is an ordinary value). -/
theorem c5_load_failure (msg : String) :
    extract_word_defs (LoadResult.failure msg)
      = (["Error processing file: " ++ msg], []) := rfl

/-- Claim C7: on every input — load failure, clean traversal, or
traversal stopped by an exception — `extract_word_defs` returns the
empty list: the `results` accumulator is never appended to. -/
theorem c7_returns_empty (input : LoadResult) :
    (extract_word_defs input).snd = [] := by
  cases input with
  | failure msg => rfl
  | success doc =>
    cases h : (runEntries (pyValues doc)).exc <;>
      simp [extract_word_defs, h]

/-- Claim C8: on the spec's end-to-end example document the function
prints exactly the single line `cat|A small domesticated feline` and
returns the empty list. -/
theorem c8_end_to_end :
    extract_word_defs (LoadResult.success
      [("1", EntryVal.obj ⟨StrField.str "Cat", MeaningsField.list
        [⟨StrField.str "a small domesticated feline"⟩, ⟨StrField.str ""⟩]⟩),
       ("2", EntryVal.obj ⟨StrField.str "", MeaningsField.list
        [⟨StrField.str "ignored"⟩]⟩)])
      = (["cat|A small domesticated feline"], []) := by decide

/-- Claim C9: the truthiness guard on `def` makes the `IndexError`
branch of the capitalization (`definition[0]` on an empty string)
unreachable: processing a meaning never raises, and processing a
well-shaped entry never raises. -/
theorem c9_capitalization_safe :
    (∀ (w : String) (m : Meaning), (processMeaning w m).exc = none) ∧
    (∀ (e : Entry), (runEntry (EntryVal.obj e)).exc = none) := by
  refine ⟨processMeaning_exc_none, ?_⟩
  intro e
  obtain ⟨wd, ms0⟩ := e
  cases wd with
  | absent => rfl
  | null => rfl
  | str s =>
    cases ms0 with
    | absent => simp [runEntry, getStr, getMeanings]
    | null => rfl
    | list ms =>
      by_cases hg : (s.data.isEmpty || ms.isEmpty) = true
      · unfold runEntry
        simp only [getStr, getMeanings]
        rw [if_pos hg]
      · unfold runEntry
        simp only [getStr, getMeanings]
        rw [if_neg hg]
        exact runMeanings_exc_none s ms

/-- Claim C10: the output depends only on the sequence of entry values,
not on the mapping keys; and, the embedding being a pure function, two
runs over the same document are identical by reflexivity. -/
theorem c10_key_independence (d1 d2 : List (String × EntryVal))
    (h : pyValues d1 = pyValues d2) :
    extract_word_defs (LoadResult.success d1)
      = extract_word_defs (LoadResult.success d2) := by
  simp only [extract_word_defs, h]

/-- Witness for claim C10: the same entry under different keys yields
the same output. -/
theorem c10_key_independence_witness :
    extract_word_defs (LoadResult.success
      [("key1", EntryVal.obj ⟨StrField.str "Dog", MeaningsField.list [⟨StrField.str "a pet"⟩]⟩)])
    = extract_word_defs (LoadResult.success
      [("key2", EntryVal.obj ⟨StrField.str "Dog", MeaningsField.list [⟨StrField.str "a pet"⟩]⟩)]) :=
  c10_key_independence _ _ rfl

/-- Claim C3: a meaning whose `def` is falsy (absent, null or `""`)
produces no output and no exception, and removing it from the meanings
list leaves the inner loop's behaviour — in particular every sibling's
output line — unchanged. -/
theorem c3_skip_meaning (w : String) (m : Meaning) (ms1 ms2 : List Meaning)
    (h : m.defField = StrField.absent ∨ m.defField = StrField.null ∨
         m.defField = StrField.str "") :
    processMeaning w m = ⟨[], none⟩ ∧
    runMeanings w (ms1 ++ m :: ms2) = runMeanings w (ms1 ++ ms2) := by
  have h0 : ("" : String).data.isEmpty = true := by decide
  have hpm : processMeaning w m = ⟨[], none⟩ := by
    obtain ⟨df⟩ := m
    simp only at h
    rcases h with h | h | h <;> subst h
    · rfl
    · rfl
    · unfold processMeaning
      simp [getStr, h0]
  exact ⟨hpm, runMeanings_skip hpm ms1 ms2⟩

/-- Witness for claim C3: a null `def` between two truthy siblings. -/
theorem c3_skip_meaning_witness :
    processMeaning "dog" ⟨StrField.null⟩ = ⟨[], none⟩ ∧
    runMeanings "dog" ([⟨StrField.str "a"⟩] ++ ⟨StrField.null⟩ :: [⟨StrField.str "b"⟩])
      = runMeanings "dog" ([⟨StrField.str "a"⟩] ++ [⟨StrField.str "b"⟩]) :=
  c3_skip_meaning "dog" ⟨StrField.null⟩ [⟨StrField.str "a"⟩] [⟨StrField.str "b"⟩]
    (Or.inr (Or.inl rfl))

/-- Counterexample to claim C4 as stated: an entry whose `word` is the
empty string is skipped by the entry-level guard and emits zero lines,
even though it has one meaning with a non-empty `def`. -/
theorem c4_counterexample :
    ¬ ((extract_word_defs (LoadResult.success
        [("1", EntryVal.obj ⟨StrField.str "",
          MeaningsField.list [⟨StrField.str "x"⟩]⟩)])).fst.length
      = countTruthyDefs [⟨StrField.str "x"⟩]) := by decide

/-- Claim C4 (amended): for every entry that passes the entry-level
guard — truthy `word` and truthy `meanings` — the number of lines
emitted for it equals the number of its meanings with a non-empty
`def`. -/
theorem c4_cardinality_of_processed (e : Entry) (w : String) (ms : List Meaning)
    (hw : getStr e.word = some w) (hwt : w.data.isEmpty = false)
    (hms : getMeanings e.meanings = some ms) (hmst : ms.isEmpty = false) :
    (runEntry (EntryVal.obj e)).printed.length = countTruthyDefs ms := by
  obtain ⟨wd, ms0⟩ := e
  simp only at hw hms
  have hwd : wd = StrField.str w := by
    cases wd with
    | absent => exact absurd hw (by simp [getStr])
    | null => exact absurd hw (by simp [getStr])
    | str s =>
      simp only [getStr, Option.some.injEq] at hw
      rw [hw]
  have hms0 : ms0 = MeaningsField.list ms := by
    cases ms0 with
    | absent =>
      simp only [getMeanings, Option.some.injEq] at hms
      rw [← hms] at hmst
      simp at hmst
    | null => exact absurd hms (by simp [getMeanings])
    | list l =>
      simp only [getMeanings, Option.some.injEq] at hms
      rw [hms]
  subst hwd
  subst hms0
  have hr : runEntry (EntryVal.obj ⟨StrField.str w, MeaningsField.list ms⟩)
      = runMeanings w ms := by
    unfold runEntry
    simp only [getStr, getMeanings]
    rw [hwt, hmst]
    simp
  rw [hr]
  exact runMeanings_printed_length w ms

/-- Witness for amended claim C4: a processed entry with one truthy and
one null `def` emits exactly one line. -/
theorem c4_cardinality_of_processed_witness :
    (runEntry (EntryVal.obj ⟨StrField.str "ab",
      MeaningsField.list [⟨StrField.str "x"⟩, ⟨StrField.null⟩]⟩)).printed.length
      = countTruthyDefs [⟨StrField.str "x"⟩, ⟨StrField.null⟩] :=
  c4_cardinality_of_processed
    ⟨StrField.str "ab", MeaningsField.list [⟨StrField.str "x"⟩, ⟨StrField.null⟩]⟩
    "ab" [⟨StrField.str "x"⟩, ⟨StrField.null⟩] rfl (by decide) rfl (by decide)

/-- The document used to refute claim C6: a well-formed first entry
followed by a non-object value, on which `entry.get("word")` raises
mid-traversal. -/
def c6doc : List (String × EntryVal) :=
  [("1", EntryVal.obj ⟨StrField.str "Cat",
     MeaningsField.list [⟨StrField.str "a small domesticated feline"⟩]⟩),
   ("2", EntryVal.nonObj "int")]

/-- Counterexample to claim C6 as stated: on `c6doc` the run fails
(the traversal raises), yet one data line was already printed before
the single diagnostic line — partial data output before a failure is
possible, because the `try` block also covers the traversal. -/
theorem c6_counterexample :
    (runEntries (pyValues c6doc)).exc.isSome = true ∧
    (extract_word_defs (LoadResult.success c6doc)).fst =
      ["cat|A small domesticated feline",
       "Error processing file: 'int' object has no attribute 'get'"] ∧
    ((extract_word_defs (LoadResult.success c6doc)).fst.filter
        (fun l => !(isDiagLine l))).length = 1 := by decide

/-- Claim C6 (amended): exactly one diagnostic line is printed on any
failure, and it is the last line; a failure of the load/parse step
produces zero data lines, but a failure during the traversal (a
non-object entry) keeps the data lines already printed before it. -/
theorem c6_amended_diagnostics :
    (∀ (msg : String),
      (extract_word_defs (LoadResult.failure msg)).fst = [errLine msg]) ∧
    (∀ (doc : List (String × EntryVal)) (m : String),
      (runEntries (pyValues doc)).exc = some m →
      (extract_word_defs (LoadResult.success doc)).fst
        = (runEntries (pyValues doc)).printed ++ [errLine m]) := by
  constructor
  · intro msg
    rfl
  · intro doc m h
    simp only [extract_word_defs, h]

/-- Witness for amended claim C6: a load failure prints only its
diagnostic, and the traversal failure on `c6doc` appends its diagnostic
after the data line already printed. -/
theorem c6_amended_diagnostics_witness :
    (extract_word_defs (LoadResult.failure "boom")).fst = [errLine "boom"] ∧
    (extract_word_defs (LoadResult.success c6doc)).fst
      = (runEntries (pyValues c6doc)).printed
        ++ [errLine "'int' object has no attribute 'get'"] :=
  ⟨c6_amended_diagnostics.1 "boom",
   c6_amended_diagnostics.2 c6doc "'int' object has no attribute 'get'" (by decide)⟩
